import Mathlib

/- Verification of the version model and bump-resolution engine of the
   semantic-release GitHub action (source: src/unnamed/part_001, the variant
   the specification's claims cite).

   Modelling decisions:
   * JS numbers held in version components are modelled as `Nat`; the
     final-release sentinel `Number.MAX_VALUE` is the exact natural number
     `(2^53 - 1) * 2^971` (the value of the IEEE-754 double).
   * JS strings are modelled as lists of characters (`JStr`).
   * `parseInt` results that are `NaN`, and `undefined` produced by array
     destructuring past the end, are both modelled as `Option.none`; no
     verified property distinguishes the two.
-/

set_option exponentiation.threshold 1100

namespace SemRel

/-- A JS string, as the list of its characters. -/
abbrev JStr := List Char

/-- The exact value of `Number.MAX_VALUE`, used by the source as the
prerelease-ordinal sentinel marking a final release. -/
def maxValue : Nat := (2 ^ 53 - 1) * 2 ^ 971

/-- The `Version` class of the source: a semantic version with a numeric
prerelease ordinal, where `prerelease = maxValue` marks a final release. -/
structure Version where
  major : Nat
  minor : Nat
  patch : Nat
  prerelease : Nat
deriving DecidableEq

/-- `isMajorRelease(): minor === 0 && patch === 0`. -/
def Version.isMajorRelease (v : Version) : Bool :=
  v.minor == 0 && v.patch == 0

/-- `isMinorRelease(): patch === 0`. -/
def Version.isMinorRelease (v : Version) : Bool :=
  v.patch == 0

/-- `isPatchRelease(): patch > 0`. -/
def Version.isPatchRelease (v : Version) : Bool :=
  decide (0 < v.patch)

/-- `isPreRelease(): prerelease < Number.MAX_VALUE`. -/
def Version.isPreRelease (v : Version) : Bool :=
  decide (v.prerelease < maxValue)

/-- `isAtLeastMajorRelease(): isMajorRelease()`. -/
def Version.isAtLeastMajorRelease (v : Version) : Bool :=
  v.isMajorRelease

/-- `isAtLeastMinorRelease(): isMajorRelease() || isMinorRelease()`. -/
def Version.isAtLeastMinorRelease (v : Version) : Bool :=
  v.isMajorRelease || v.isMinorRelease

/-- `isAtLeastPatchRelease(): isMajorRelease() || isMinorRelease() || isPatchRelease()`. -/
def Version.isAtLeastPatchRelease (v : Version) : Bool :=
  v.isMajorRelease || v.isMinorRelease || v.isPatchRelease

/-- `compare(other)`: the source's chain of field comparisons, returning
1, -1 or 0. -/
def Version.compare (a other : Version) : Int :=
  if a.major > other.major then 1
  else if a.major < other.major then -1
  else if a.minor > other.minor then 1
  else if a.minor < other.minor then -1
  else if a.patch > other.patch then 1
  else if a.patch < other.patch then -1
  else if a.prerelease > other.prerelease then 1
  else if a.prerelease < other.prerelease then -1
  else 0

/-- `greaterThan(other): compare(other) > 0`. -/
def Version.greaterThan (a other : Version) : Bool :=
  decide (a.compare other > 0)

/-- `lessThan(other): compare(other) < 0`. -/
def Version.lessThan (a other : Version) : Bool :=
  decide (a.compare other < 0)

/-- Decimal rendering of a natural number, as produced by JS template-literal
interpolation of a non-negative integer.  The first argument is structural
fuel (always called with fuel > n, see `natToStr`). -/
def natToStrCore : Nat → Nat → JStr
  | 0, _ => []
  | fuel + 1, n =>
    if n < 10 then [Nat.digitChar n]
    else natToStrCore fuel (n / 10) ++ [Nat.digitChar (n % 10)]

/-- Decimal rendering of a natural number (JS `${n}` for a non-negative
integer). -/
def natToStr (n : Nat) : JStr :=
  natToStrCore (n + 1) n

/-- Numeric value of a list of decimal digit characters (the value JS
`parseInt` gives to its scanned digit run). -/
def digitsVal (s : JStr) : Nat :=
  s.foldl (fun acc c => acc * 10 + (c.toNat - 48)) 0

/-- Model of JS `parseInt(s)` in base 10: skip leading spaces, scan the
maximal leading run of decimal digits; `none` models the `NaN` result when
that run is empty.  (Sign characters never occur here: the source only
applies `parseInt` to segments of a tag already split on `-`.) -/
def jsParseInt (s : JStr) : Option Nat :=
  let t := s.dropWhile (fun c => c = ' ')
  let ds := t.takeWhile Char.isDigit
  if ds.isEmpty then none else some (digitsVal ds)

/-- Model of JS `String.prototype.split` with a single-character separator:
`splitOnChar sep s` cuts `s` at every occurrence of `sep`.  The result is
always non-empty (`[[]]` for the empty string, as in JS). -/
def splitOnChar (sep : Char) : JStr → List JStr
  | [] => [[]]
  | c :: rest =>
    if c = sep then [] :: splitOnChar sep rest
    else
      match splitOnChar sep rest with
      | [] => [[c]]
      | r :: rs => (c :: r) :: rs

/-- The literal marker `"pre"`. -/
def preStr : JStr := ['p', 'r', 'e']

/-- The tag string `M.N.P` (JS template `${major}.${minor}.${patch}`). -/
def relTag (M N P : Nat) : JStr :=
  natToStr M ++ ('.' :: natToStr N) ++ ('.' :: natToStr P)

/-- The tag string `M.N.P-pre` (prerelease ordinal 0). -/
def preTag0 (M N P : Nat) : JStr :=
  relTag M N P ++ ('-' :: preStr)

/-- The tag string `M.N.P-pre.K`. -/
def preTagK (M N P K : Nat) : JStr :=
  relTag M N P ++ ('-' :: preStr) ++ ('.' :: natToStr K)

/-- `toTag()`: serialize a version to its tag string. -/
def Version.toTag (v : Version) : JStr :=
  if v.isPreRelease then
    if v.prerelease == 0 then preTag0 v.major v.minor v.patch
    else preTagK v.major v.minor v.patch v.prerelease
  else relTag v.major v.minor v.patch

/-- The result of `tagToVersion`: the four arguments the source passes to the
`Version` constructor.  A field is `none` when the corresponding JS value is
`NaN` (failed `parseInt`) or `undefined` (destructuring past the end); a
final release carries `some maxValue` in `prerelease` (the constructor's
default). -/
structure ParsedVersion where
  major : Option Nat
  minor : Option Nat
  patch : Option Nat
  prerelease : Option Nat
deriving DecidableEq

/-- `tagToVersion(tag)`: parse a tag string.  `none` models the
`InvalidTagFormat` failure path (`core.setFailed` + `process.exit`), taken
exactly when a dash suffix is present and its first dot-segment is not the
literal `pre`. -/
def tagToVersion (tag : JStr) : Option ParsedVersion :=
  let parts := splitOnChar '-' tag
  let versionPart := parts.headD []
  let prePart := parts[1]?
  let comps := (splitOnChar '.' versionPart).map jsParseInt
  let major := (comps[0]?).join
  let minor := (comps[1]?).join
  let patch := (comps[2]?).join
  match prePart with
  | none => some ⟨major, minor, patch, some maxValue⟩
  | some pp =>
    let preComps := splitOnChar '.' pp
    let pre := preComps.headD []
    let prereleaseNumber := preComps[1]?
    if pre ≠ preStr then none
    else
      let prerelease :=
        match prereleaseNumber with
        | none => some 0
        | some s => jsParseInt s
      some ⟨major, minor, patch, prerelease⟩

/-- The `VersionBumpAction` enum of the source. -/
inductive VersionBumpAction where
  | Major
  | Minor
  | Patch
deriving DecidableEq

/-- `bumpFromPrereleaseToPrerelease`.  (The source's `default` switch branch
is unreachable: the action enum is closed.) -/
def bumpFromPrereleaseToPrerelease (version : Version)
    (versionBumpAction : VersionBumpAction) : Version :=
  match versionBumpAction with
  | VersionBumpAction.Major =>
    if version.isAtLeastMajorRelease then
      ⟨version.major, 0, 0, version.prerelease + 1⟩
    else ⟨version.major + 1, 0, 0, 0⟩
  | VersionBumpAction.Minor =>
    if version.isAtLeastMinorRelease then
      ⟨version.major, version.minor, 0, version.prerelease + 1⟩
    else ⟨version.major, version.minor + 1, 0, 0⟩
  | VersionBumpAction.Patch =>
    if version.isAtLeastPatchRelease then
      ⟨version.major, version.minor, version.patch, version.prerelease + 1⟩
    else ⟨version.major, version.minor, version.patch + 1, 0⟩

/-- `bumpFromPrereleaseToRelease`.  The omitted constructor argument defaults
to `Number.MAX_VALUE`, i.e. `maxValue`. -/
def bumpFromPrereleaseToRelease (version : Version)
    (versionBumpAction : VersionBumpAction) : Version :=
  match versionBumpAction with
  | VersionBumpAction.Major =>
    if version.isAtLeastMajorRelease then ⟨version.major, 0, 0, maxValue⟩
    else ⟨version.major + 1, 0, 0, maxValue⟩
  | VersionBumpAction.Minor =>
    if version.isAtLeastMinorRelease then
      ⟨version.major, version.minor, 0, maxValue⟩
    else ⟨version.major, version.minor + 1, 0, maxValue⟩
  | VersionBumpAction.Patch =>
    if version.isAtLeastPatchRelease then
      ⟨version.major, version.minor, version.patch, maxValue⟩
    else ⟨version.major, version.minor, version.patch + 1, maxValue⟩

/-- `bumpFromReleaseToPrerelease`. -/
def bumpFromReleaseToPrerelease (version : Version)
    (versionBumpAction : VersionBumpAction) : Version :=
  match versionBumpAction with
  | VersionBumpAction.Major => ⟨version.major + 1, 0, 0, 0⟩
  | VersionBumpAction.Minor => ⟨version.major, version.minor + 1, 0, 0⟩
  | VersionBumpAction.Patch => ⟨version.major, version.minor, version.patch + 1, 0⟩

/-- `bumpFromReleaseToRelease`. -/
def bumpFromReleaseToRelease (version : Version)
    (versionBumpAction : VersionBumpAction) : Version :=
  match versionBumpAction with
  | VersionBumpAction.Major => ⟨version.major + 1, 0, 0, maxValue⟩
  | VersionBumpAction.Minor => ⟨version.major, version.minor + 1, 0, maxValue⟩
  | VersionBumpAction.Patch => ⟨version.major, version.minor, version.patch + 1, maxValue⟩

/-- `getNextVersion`: dispatch on `(current.isPreRelease(), prerelease)` to
the four transition tables. -/
def getNextVersion (version : Version) (versionBumpAction : VersionBumpAction)
    (prerelease : Bool) : Version :=
  if version.isPreRelease then
    if prerelease then bumpFromPrereleaseToPrerelease version versionBumpAction
    else bumpFromPrereleaseToRelease version versionBumpAction
  else
    if prerelease then bumpFromReleaseToPrerelease version versionBumpAction
    else bumpFromReleaseToRelease version versionBumpAction

/-- The reducer `(prev, current) => prev.greaterThan(current) ? prev :
current` inside `findLatestVersion`. -/
def latestReduce (prev current : Version) : Version :=
  if prev.greaterThan current then prev else current

/-- `findLatestVersion(versions, prerelease)`: keep the versions whose
`isPreRelease()` equals the flag, then reduce with `latestReduce` (JS
`reduce` with no initial value: the first element seeds the fold). -/
def findLatestVersion (versions : List Version) (prerelease : Bool) :
    Option Version :=
  let filteredVersions := versions.filter fun version =>
    version.isPreRelease == prerelease
  match filteredVersions with
  | [] => none
  | v :: rest => some (rest.foldl latestReduce v)

/-- Outcome of one run of the `release` orchestration, as observed through
`core`: a clean no-op (`release_created = false`, run succeeds), a
`core.setFailed` abort, or a created release for the computed next version. -/
inductive RunOutcome where
  | noRelease
  | failed (msg : String)
  | released (next : Version)
deriving DecidableEq

/-- The `release(prerelease)` orchestration of the source, with its two
collaborator results (the resolved bump action and the parsed repository
tags) passed in as values. -/
def release (versionBumpAction : Option VersionBumpAction)
    (versions : List Version) (prerelease : Bool) : RunOutcome :=
  match versionBumpAction with
  | none => RunOutcome.noRelease
  | some action =>
    match findLatestVersion versions prerelease with
    | none => RunOutcome.failed "No releases found."
    | some latestReleaseVersion =>
      RunOutcome.released (getNextVersion latestReleaseVersion action prerelease)

/-- An associated pull request, reduced to what the source reads: its label
names. -/
structure PullRequest where
  labels : List String
deriving DecidableEq

/-- The label-to-action mapping inside `getVersionBumpActionFromPRLabel`. -/
def labelToAction (label : String) : Option VersionBumpAction :=
  if label = "release:major" then some VersionBumpAction.Major
  else if label = "release:minor" then some VersionBumpAction.Minor
  else if label = "release:patch" then some VersionBumpAction.Patch
  else none

/-- `getVersionBumpActionFromPRLabel`, with the fetched associated-PR list
passed in: consult only the first PR, map its labels, and demand exactly one
match. -/
def getVersionBumpActionFromPRLabel (associatedPrs : List PullRequest) :
    Option VersionBumpAction :=
  match associatedPrs with
  | [] => none
  | targetPr :: _ =>
    let versionBumpActions :=
      (targetPr.labels.map labelToAction).filter fun a => a.isSome
    if versionBumpActions.length = 0 then none
    else if versionBumpActions.length > 1 then none
    else versionBumpActions.headD none

/-- The target-version resolution of `promote()` when no `promote_from`
input is given: `findLatestVersion(await getRepoTags(), false)`. -/
def promoteTargetLatest (versions : List Version) : Option Version :=
  findLatestVersion versions false

/-- The next-version computation of `promote()`:
`getNextVersion(latestPrereleaseVersion, VersionBumpAction.Patch, false)`.
Note `promote()` never consults the configured `version_bump`. -/
def promoteNext (v : Version) : Version :=
  getNextVersion v VersionBumpAction.Patch false

end SemRel

namespace SemRel

/-! ### Order-theoretic facts about `Version.compare` -/

theorem compare_eq_one_iff (a b : Version) :
    a.compare b = 1 ↔
      (b.major < a.major ∨ (a.major = b.major ∧
        (b.minor < a.minor ∨ (a.minor = b.minor ∧
          (b.patch < a.patch ∨ (a.patch = b.patch ∧
            b.prerelease < a.prerelease)))))) := by
  unfold Version.compare
  split_ifs <;> simp <;> omega

theorem compare_eq_zero_iff (a b : Version) :
    a.compare b = 0 ↔
      (a.major = b.major ∧ a.minor = b.minor ∧ a.patch = b.patch ∧
        a.prerelease = b.prerelease) := by
  unfold Version.compare
  split_ifs <;> simp <;> omega

theorem compare_antisym (a b : Version) : a.compare b = -(b.compare a) := by
  unfold Version.compare
  split_ifs <;> omega

theorem compare_self (v : Version) : v.compare v = 0 := by
  rw [compare_eq_zero_iff]
  exact ⟨rfl, rfl, rfl, rfl⟩

theorem compare_trichotomy (a b : Version) :
    a.compare b = -1 ∨ a.compare b = 0 ∨ a.compare b = 1 := by
  unfold Version.compare
  split_ifs <;> simp

theorem compare_trans_one {a b c : Version} (h1 : a.compare b = 1)
    (h2 : b.compare c = 1) : a.compare c = 1 := by
  rw [compare_eq_one_iff] at h1 h2 ⊢
  omega

theorem compare_nonneg_trans {a b c : Version} (h1 : 0 ≤ a.compare b)
    (h2 : 0 ≤ b.compare c) : 0 ≤ a.compare c := by
  rcases compare_trichotomy a b with hab | hab | hab <;>
    rcases compare_trichotomy b c with hbc | hbc | hbc <;>
      simp only [hab, hbc] at h1 h2 ⊢ <;> try omega
  · rw [compare_eq_zero_iff] at hab hbc
    have : a.compare c = 0 := by rw [compare_eq_zero_iff]; omega
    omega
  · rw [compare_eq_zero_iff] at hab
    rw [compare_eq_one_iff] at hbc
    have : a.compare c = 1 := by rw [compare_eq_one_iff]; omega
    omega
  · rw [compare_eq_zero_iff] at hbc
    rw [compare_eq_one_iff] at hab
    have : a.compare c = 1 := by rw [compare_eq_one_iff]; omega
    omega
  · have := compare_trans_one hab hbc
    omega

/-- C2: `Version.compare` is a total order, lexicographic on
(major, minor, patch, prerelease ordinal) with the `maxValue` sentinel of a
final release ranking above every real ordinal: it is reflexive-zero,
antisymmetric, transitive, a final release of a triple compares strictly
greater than every prerelease of the same triple, and the concrete chain
`(1,2,0)` final > `(1,2,0)-pre.9` > `(1,2,0)-pre.0` > `(1,1,9)` final
holds. -/
theorem compare_total_order :
    (∀ v : Version, v.compare v = 0) ∧
    (∀ a b : Version, a.compare b = -(b.compare a)) ∧
    (∀ a b c : Version, a.compare b = 1 → b.compare c = 1 → a.compare c = 1) ∧
    (∀ M N P k : Nat, k < maxValue →
      Version.compare ⟨M, N, P, maxValue⟩ ⟨M, N, P, k⟩ = 1) ∧
    (Version.compare ⟨1, 2, 0, maxValue⟩ ⟨1, 2, 0, 9⟩ = 1 ∧
     Version.compare ⟨1, 2, 0, 9⟩ ⟨1, 2, 0, 0⟩ = 1 ∧
     Version.compare ⟨1, 2, 0, 0⟩ ⟨1, 1, 9, maxValue⟩ = 1) := by
  refine ⟨compare_self, compare_antisym,
    fun a b c => compare_trans_one, fun M N P k hk => ?_, by decide⟩
  rw [compare_eq_one_iff]
  dsimp only
  omega

/-- Witness for C2 at concrete versions. -/
theorem compare_total_order_witness :
    3 < maxValue ∧ Version.compare ⟨7, 5, 2, maxValue⟩ ⟨7, 5, 2, 3⟩ = 1 :=
  ⟨by decide, compare_total_order.2.2.2.1 7 5 2 3 (by decide)⟩

/-! ### Arithmetic characterizations of the release predicates -/

theorem maxValue_pos : 0 < maxValue := by norm_num [maxValue]

@[simp]
theorem isPreRelease_iff (v : Version) :
    v.isPreRelease = true ↔ v.prerelease < maxValue := by
  simp [Version.isPreRelease]

@[simp]
theorem isAtLeastMajorRelease_iff (v : Version) :
    v.isAtLeastMajorRelease = true ↔ (v.minor = 0 ∧ v.patch = 0) := by
  simp [Version.isAtLeastMajorRelease, Version.isMajorRelease]

@[simp]
theorem isAtLeastMinorRelease_iff (v : Version) :
    v.isAtLeastMinorRelease = true ↔ v.patch = 0 := by
  simp [Version.isAtLeastMinorRelease, Version.isMajorRelease,
    Version.isMinorRelease]

@[simp]
theorem isPreRelease_eq_false_iff (v : Version) :
    v.isPreRelease = false ↔ ¬ v.prerelease < maxValue := by
  simp [Version.isPreRelease]

@[simp]
theorem isAtLeastPatchRelease_true (v : Version) :
    v.isAtLeastPatchRelease = true := by
  simp [Version.isAtLeastPatchRelease, Version.isMajorRelease,
    Version.isMinorRelease, Version.isPatchRelease]
  omega

/-! ### The transition engine -/

/-- C1: for a prerelease current version `(M,N,P)-pre.k` and each bump
action, the engine finalizes in place (dropping the ordinal, truncating the
triple per the action) when the at-least-X predicate holds and bumps the
named component (zeroing lower ones) otherwise; targeting a prerelease, the
same test selects between advancing the ordinal on the truncated triple and
opening a new line at ordinal 0. -/
theorem prerelease_transition_tables (M N P k : Nat) (h : k < maxValue) :
    (getNextVersion ⟨M, N, P, k⟩ VersionBumpAction.Major false =
      if (⟨M, N, P, k⟩ : Version).isAtLeastMajorRelease then
        ⟨M, 0, 0, maxValue⟩ else ⟨M + 1, 0, 0, maxValue⟩) ∧
    (getNextVersion ⟨M, N, P, k⟩ VersionBumpAction.Minor false =
      if (⟨M, N, P, k⟩ : Version).isAtLeastMinorRelease then
        ⟨M, N, 0, maxValue⟩ else ⟨M, N + 1, 0, maxValue⟩) ∧
    (getNextVersion ⟨M, N, P, k⟩ VersionBumpAction.Patch false =
      if (⟨M, N, P, k⟩ : Version).isAtLeastPatchRelease then
        ⟨M, N, P, maxValue⟩ else ⟨M, N, P + 1, maxValue⟩) ∧
    (getNextVersion ⟨M, N, P, k⟩ VersionBumpAction.Major true =
      if (⟨M, N, P, k⟩ : Version).isAtLeastMajorRelease then
        ⟨M, 0, 0, k + 1⟩ else ⟨M + 1, 0, 0, 0⟩) ∧
    (getNextVersion ⟨M, N, P, k⟩ VersionBumpAction.Minor true =
      if (⟨M, N, P, k⟩ : Version).isAtLeastMinorRelease then
        ⟨M, N, 0, k + 1⟩ else ⟨M, N + 1, 0, 0⟩) ∧
    (getNextVersion ⟨M, N, P, k⟩ VersionBumpAction.Patch true =
      if (⟨M, N, P, k⟩ : Version).isAtLeastPatchRelease then
        ⟨M, N, P, k + 1⟩ else ⟨M, N, P + 1, 0⟩) := by
  have hp : (⟨M, N, P, k⟩ : Version).isPreRelease = true := by
    simpa using h
  refine ⟨?_, ?_, ?_, ?_, ?_, ?_⟩ <;>
    simp only [getNextVersion, hp, eq_self_iff_true, if_true] <;> rfl

/-- Witness for C1 at `(1,2,3)-pre.4`, Patch targeting a prerelease. -/
theorem prerelease_transition_tables_witness :
    4 < maxValue ∧
    getNextVersion ⟨1, 2, 3, 4⟩ VersionBumpAction.Patch true =
      (if (⟨1, 2, 3, 4⟩ : Version).isAtLeastPatchRelease then
        (⟨1, 2, 3, 5⟩ : Version) else ⟨1, 2, 4, 0⟩) :=
  ⟨by decide, (prerelease_transition_tables 1 2 3 4 (by decide)).2.2.2.2.2⟩

/-- C5: promoting a prerelease `(M,N,P)-pre.k` (the fixed
`Patch`-action, final-target transition `promote()` uses, independent of the
configured `version_bump`) always yields `(M,N,P)` final: the triple is never
changed. -/
theorem promote_preserves_triple (M N P k : Nat) (h : k < maxValue) :
    promoteNext ⟨M, N, P, k⟩ = ⟨M, N, P, maxValue⟩ := by
  have hp : (⟨M, N, P, k⟩ : Version).isPreRelease = true := by
    simpa using h
  simp [promoteNext, getNextVersion, hp, bumpFromPrereleaseToRelease]

/-- Witness for C5 at `(2,0,0)-pre.1`. -/
theorem promote_preserves_triple_witness :
    1 < maxValue ∧ promoteNext ⟨2, 0, 0, 1⟩ = ⟨2, 0, 0, maxValue⟩ :=
  ⟨by decide, promote_preserves_triple 2 0 0 1 (by decide)⟩

/-- C9: the transition engine is strictly increasing — the computed next
version compares strictly greater than the current one, for every bump
action and both target finalities. -/
theorem getNextVersion_strict_increase (v : Version)
    (action : VersionBumpAction) (p : Bool)
    (h : v.isPreRelease = true → v.prerelease + 1 < maxValue) :
    (getNextVersion v action p).compare v = 1 := by
  obtain ⟨M, N, P, k⟩ := v
  have h0 := maxValue_pos
  by_cases hk : k < maxValue
  · have hp : (⟨M, N, P, k⟩ : Version).isPreRelease = true := by simpa using hk
    cases action <;> cases p <;>
      simp only [getNextVersion, hp, eq_self_iff_true, if_true,
        Bool.false_eq_true, if_false, bumpFromPrereleaseToPrerelease,
        bumpFromPrereleaseToRelease] <;>
      split_ifs with hcond <;>
      rw [compare_eq_one_iff] <;>
      simp only [isAtLeastMajorRelease_iff, isAtLeastMinorRelease_iff,
        isAtLeastPatchRelease_true] at hcond <;>
      (try dsimp only at hcond) <;> (try dsimp only) <;> omega
  · have hp : (⟨M, N, P, k⟩ : Version).isPreRelease = false := by
      simp only [isPreRelease_eq_false_iff]
      try dsimp only
      omega
    cases action <;> cases p <;>
      simp only [getNextVersion, hp, Bool.false_eq_true, if_false,
        eq_self_iff_true, if_true, bumpFromReleaseToPrerelease,
        bumpFromReleaseToRelease] <;>
      rw [compare_eq_one_iff] <;> (try dsimp only) <;> omega

/-- Witness for C9 at `(1,2,3)-pre.4`, Patch targeting a prerelease. -/
theorem getNextVersion_strict_increase_witness :
    ((⟨1, 2, 3, 4⟩ : Version).isPreRelease = true →
      (⟨1, 2, 3, 4⟩ : Version).prerelease + 1 < maxValue) ∧
    (getNextVersion ⟨1, 2, 3, 4⟩ VersionBumpAction.Patch true).compare
      ⟨1, 2, 3, 4⟩ = 1 :=
  ⟨by decide,
   getNextVersion_strict_increase ⟨1, 2, 3, 4⟩ VersionBumpAction.Patch true
     (by decide)⟩

/-- C10: the engine's output finality always equals the requested target —
`getNextVersion(v, action, p)` is a prerelease exactly when `p` is true. -/
theorem getNextVersion_finality (v : Version) (action : VersionBumpAction)
    (p : Bool)
    (h : v.isPreRelease = true → p = true → v.prerelease + 1 < maxValue) :
    (getNextVersion v action p).isPreRelease = p := by
  obtain ⟨M, N, P, k⟩ := v
  have h0 := maxValue_pos
  by_cases hk : k < maxValue
  · have hp : (⟨M, N, P, k⟩ : Version).isPreRelease = true := by simpa using hk
    cases action <;> cases p <;>
      simp only [getNextVersion, hp, eq_self_iff_true, if_true,
        Bool.false_eq_true, if_false, bumpFromPrereleaseToPrerelease,
        bumpFromPrereleaseToRelease] <;>
      split_ifs <;>
      simp only [isPreRelease_iff, isPreRelease_eq_false_iff] <;>
      (try dsimp only) <;>
      (try replace h := h hp rfl) <;> (try dsimp only at h) <;> omega
  · have hp : (⟨M, N, P, k⟩ : Version).isPreRelease = false := by
      simp only [isPreRelease_eq_false_iff]
      try dsimp only
      omega
    cases action <;> cases p <;>
      simp only [getNextVersion, hp, Bool.false_eq_true, if_false,
        eq_self_iff_true, if_true, bumpFromReleaseToPrerelease,
        bumpFromReleaseToRelease] <;>
      simp only [isPreRelease_iff, isPreRelease_eq_false_iff] <;>
      (try dsimp only) <;> omega

/-- Witness for C10 at `(1,2,3)-pre.4`, Minor targeting a prerelease. -/
theorem getNextVersion_finality_witness :
    ((⟨1, 2, 3, 4⟩ : Version).isPreRelease = true → true = true →
      (⟨1, 2, 3, 4⟩ : Version).prerelease + 1 < maxValue) ∧
    (getNextVersion ⟨1, 2, 3, 4⟩ VersionBumpAction.Minor true).isPreRelease =
      true :=
  ⟨by decide,
   getNextVersion_finality ⟨1, 2, 3, 4⟩ VersionBumpAction.Minor true
     (by decide)⟩

/-! ### Latest-version selection -/

theorem latestReduce_spec (x y : Version) :
    0 ≤ (latestReduce x y).compare x ∧ 0 ≤ (latestReduce x y).compare y ∧
    (latestReduce x y = x ∨ latestReduce x y = y) := by
  unfold latestReduce
  by_cases hg : x.greaterThan y = true
  · have hxy : 0 < x.compare y := by
      simpa [Version.greaterThan] using hg
    rw [if_pos hg]
    exact ⟨by rw [compare_self], by omega, Or.inl rfl⟩
  · have hxy : ¬ 0 < x.compare y := by
      simpa [Version.greaterThan] using hg
    have hyx : 0 ≤ y.compare x := by
      have := compare_antisym x y
      omega
    rw [if_neg hg]
    exact ⟨hyx, by rw [compare_self], Or.inr rfl⟩

theorem foldl_latestReduce_spec (xs : List Version) (x : Version) :
    (xs.foldl latestReduce x = x ∨ xs.foldl latestReduce x ∈ xs) ∧
    0 ≤ (xs.foldl latestReduce x).compare x ∧
    ∀ v ∈ xs, 0 ≤ (xs.foldl latestReduce x).compare v := by
  induction xs generalizing x with
  | nil =>
    simp [compare_self]
  | cons y ys ih =>
    simp only [List.foldl_cons]
    obtain ⟨ihm, ihge, ihall⟩ := ih (latestReduce x y)
    obtain ⟨hsx, hsy, hs⟩ := latestReduce_spec x y
    refine ⟨?_, compare_nonneg_trans ihge hsx, ?_⟩
    · rcases ihm with hm | hm
      · rcases hs with h | h
        · exact Or.inl (hm.trans h)
        · exact Or.inr (by rw [hm, h]; exact List.mem_cons_self y ys)
      · exact Or.inr (List.mem_cons_of_mem y hm)
    · intro v hv
      rcases List.mem_cons.mp hv with rfl | hv
      · exact compare_nonneg_trans ihge hsy
      · exact ihall v hv

theorem findLatestVersion_some_spec (versions : List Version) (p : Bool)
    (m : Version) (hm : findLatestVersion versions p = some m) :
    m ∈ versions ∧ m.isPreRelease = p ∧
      ∀ v ∈ versions, v.isPreRelease = p → 0 ≤ m.compare v := by
  unfold findLatestVersion at hm
  rcases hfl : versions.filter (fun version => version.isPreRelease == p) with
    _ | ⟨v, rest⟩
  · rw [hfl] at hm
    simp at hm
  · rw [hfl] at hm
    simp only [Option.some.injEq] at hm
    obtain ⟨hmem, hge, hall⟩ := foldl_latestReduce_spec rest v
    have hmfil : m ∈ versions.filter
        (fun version => version.isPreRelease == p) := by
      rw [hfl, ← hm]
      rcases hmem with h | h
      · rw [h]
        exact List.mem_cons_self v rest
      · exact List.mem_cons_of_mem v h
    have hmver := List.mem_filter.mp hmfil
    refine ⟨hmver.1, by simpa using hmver.2, ?_⟩
    intro w hw hwp
    have hwfil : w ∈ versions.filter
        (fun version => version.isPreRelease == p) := by
      rw [List.mem_filter]
      exact ⟨hw, by simpa using hwp⟩
    rw [hfl] at hwfil
    rcases List.mem_cons.mp hwfil with rfl | hwfil
    · rw [hm] at hge
      exact hge
    · rw [hm] at hall
      exact hall w hwfil

theorem findLatestVersion_none_iff (versions : List Version) (p : Bool) :
    findLatestVersion versions p = none ↔
      ∀ v ∈ versions, v.isPreRelease ≠ p := by
  unfold findLatestVersion
  rcases hfl : versions.filter (fun version => version.isPreRelease == p) with
    _ | ⟨v, rest⟩
  · rw [hfl]
    simp only [true_iff]
    intro w hw hwp
    have : w ∈ versions.filter (fun version => version.isPreRelease == p) := by
      rw [List.mem_filter]
      exact ⟨hw, by simpa using hwp⟩
    rw [hfl] at this
    exact List.not_mem_nil w this
  · rw [hfl]
    simp only [reduceCtorEq, false_iff, not_forall]
    have hv : v ∈ versions.filter (fun version => version.isPreRelease == p) := by
      rw [hfl]
      exact List.mem_cons_self v rest
    have := List.mem_filter.mp hv
    exact ⟨v, this.1, by simpa using this.2⟩

/-- C4 (amended): in the Prerelease/Release paths the latest version used as
the transition input is the compare-maximum over the parsed tags whose
`isPreRelease()` equals the targeted finality (not over all tags); when no
tag of that finality exists the run fails with "No releases found.". -/
theorem release_latest_selection :
    (∀ (a : VersionBumpAction) (versions : List Version) (p : Bool)
        (m : Version),
      findLatestVersion versions p = some m →
        (m ∈ versions ∧ m.isPreRelease = p ∧
          ∀ v ∈ versions, v.isPreRelease = p → 0 ≤ m.compare v) ∧
        release (some a) versions p =
          RunOutcome.released (getNextVersion m a p)) ∧
    (∀ (a : VersionBumpAction) (versions : List Version) (p : Bool),
      findLatestVersion versions p = none →
        release (some a) versions p = RunOutcome.failed "No releases found.") := by
  constructor
  · intro a versions p m hm
    refine ⟨findLatestVersion_some_spec versions p m hm, ?_⟩
    unfold release
    rw [hm]
  · intro a versions p hm
    unfold release
    rw [hm]

/-- C4 counterexample: with parsed tags `[1.0.0, 2.0.0-pre]` and a
Release-mode run (targeting a final release), the selected latest version is
`1.0.0`, although `2.0.0-pre` is the compare-maximum over all parsed tags —
selection is not the global maximum. -/
theorem release_latest_selection_counterexample :
    findLatestVersion [⟨1, 0, 0, maxValue⟩, ⟨2, 0, 0, 0⟩] false =
      some ⟨1, 0, 0, maxValue⟩ ∧
    Version.compare ⟨2, 0, 0, 0⟩ ⟨1, 0, 0, maxValue⟩ = 1 ∧
    (⟨2, 0, 0, 0⟩ : Version) ∈
      [(⟨1, 0, 0, maxValue⟩ : Version), ⟨2, 0, 0, 0⟩] := by
  refine ⟨by decide, by decide, ?_⟩
  simp

/-- Witness for C4 (amended) on the one-tag history `[1.0.0]`. -/
theorem release_latest_selection_witness :
    findLatestVersion [(⟨1, 0, 0, maxValue⟩ : Version)] false =
      some ⟨1, 0, 0, maxValue⟩ ∧
    release (some VersionBumpAction.Minor) [⟨1, 0, 0, maxValue⟩] false =
      RunOutcome.released
        (getNextVersion ⟨1, 0, 0, maxValue⟩ VersionBumpAction.Minor false) :=
  ⟨by decide,
   (release_latest_selection.1 VersionBumpAction.Minor [⟨1, 0, 0, maxValue⟩]
     false ⟨1, 0, 0, maxValue⟩ (by decide)).2⟩

/-- C6 (amended): in the Promote path with no explicit `promote_from` input,
the target version is resolved as the latest among the final-release tags
only (`isPreRelease() == false`); prerelease tags are excluded from the
resolution, and the resolution is `undefined` exactly when every tag is a
prerelease. -/
theorem promoteTargetLatest_spec :
    (∀ (versions : List Version) (m : Version),
      promoteTargetLatest versions = some m →
        m ∈ versions ∧ m.isPreRelease = false ∧
          ∀ v ∈ versions, v.isPreRelease = false → 0 ≤ m.compare v) ∧
    (∀ versions : List Version,
      promoteTargetLatest versions = none ↔
        ∀ v ∈ versions, v.isPreRelease = true) := by
  constructor
  · intro versions m hm
    exact findLatestVersion_some_spec versions false m hm
  · intro versions
    rw [promoteTargetLatest, findLatestVersion_none_iff]
    constructor
    · intro h v hv
      have := h v hv
      simpa using this
    · intro h v hv
      rw [h v hv]
      simp

/-- C6 counterexample: with tags `[1.0.0, 2.0.0-pre]` and no `promote_from`
input, the resolved promotion target is `1.0.0` (a final release), although
`2.0.0-pre` is the compare-maximum over all parsed tags. -/
theorem promoteTargetLatest_counterexample :
    promoteTargetLatest [⟨1, 0, 0, maxValue⟩, ⟨2, 0, 0, 0⟩] =
      some ⟨1, 0, 0, maxValue⟩ ∧
    Version.compare ⟨2, 0, 0, 0⟩ ⟨1, 0, 0, maxValue⟩ = 1 := by
  exact ⟨by decide, by decide⟩

/-! ### Decimal strings, `parseInt`, `split` -/

theorem digitChar_isDigit {d : Nat} (h : d < 10) :
    (Nat.digitChar d).isDigit = true := by
  interval_cases d <;> decide

theorem digitChar_toNat {d : Nat} (h : d < 10) :
    (Nat.digitChar d).toNat = 48 + d := by
  interval_cases d <;> decide

theorem isDigit_ne_seps {c : Char} (h : c.isDigit = true) :
    c ≠ '.' ∧ c ≠ '-' ∧ c ≠ ' ' := by
  refine ⟨?_, ?_, ?_⟩ <;> rintro rfl <;> exact absurd h (by decide)

theorem digitsVal_append_singleton (s : JStr) (c : Char) :
    digitsVal (s ++ [c]) = digitsVal s * 10 + (c.toNat - 48) := by
  simp [digitsVal, List.foldl_append]

theorem natToStrCore_spec (fuel : Nat) :
    ∀ n : Nat, n < fuel →
      (∀ c ∈ natToStrCore fuel n, c.isDigit = true) ∧
      natToStrCore fuel n ≠ [] ∧
      digitsVal (natToStrCore fuel n) = n := by
  induction fuel with
  | zero => omega
  | succ fuel ih =>
    intro n hn
    rw [natToStrCore]
    by_cases h10 : n < 10
    · rw [if_pos h10]
      refine ⟨?_, by simp, ?_⟩
      · intro c hc
        rw [List.mem_singleton] at hc
        subst hc
        exact digitChar_isDigit h10
      · simp [digitsVal, digitChar_toNat h10]
    · rw [if_neg h10]
      have hdiv : n / 10 < n := Nat.div_lt_self (by omega) (by omega)
      obtain ⟨ihd, ihne, ihval⟩ := ih (n / 10) (by omega)
      refine ⟨?_, by simp, ?_⟩
      · intro c hc
        rcases List.mem_append.mp hc with h | h
        · exact ihd c h
        · rw [List.mem_singleton] at h
          subst h
          exact digitChar_isDigit (Nat.mod_lt n (by omega))
      · rw [digitsVal_append_singleton, ihval,
          digitChar_toNat (Nat.mod_lt n (by omega))]
        omega

theorem natToStr_spec (n : Nat) :
    (∀ c ∈ natToStr n, c.isDigit = true) ∧ natToStr n ≠ [] ∧
      digitsVal (natToStr n) = n :=
  natToStrCore_spec (n + 1) n (Nat.lt_succ_self n)

theorem takeWhile_of_all {p : Char → Bool} :
    ∀ {l : JStr}, (∀ c ∈ l, p c = true) → l.takeWhile p = l := by
  intro l
  induction l with
  | nil => intro _; rfl
  | cons c cs ih =>
    intro h
    rw [List.takeWhile_cons, h c (List.mem_cons_self c cs)]
    simp only [if_true]
    rw [ih fun x hx => h x (List.mem_cons_of_mem c hx)]

theorem jsParseInt_all_digits {l : JStr} (hne : l ≠ [])
    (hd : ∀ c ∈ l, c.isDigit = true) : jsParseInt l = some (digitsVal l) := by
  obtain ⟨c, cs, rfl⟩ := List.exists_cons_of_ne_nil hne
  have hc := hd c (List.mem_cons_self c cs)
  have hcsp : ¬ (c = ' ') := (isDigit_ne_seps hc).2.2
  unfold jsParseInt
  rw [List.dropWhile_cons]
  simp only [hcsp, decide_False, Bool.false_eq_true, if_false]
  rw [takeWhile_of_all hd]
  simp

theorem jsParseInt_natToStr (n : Nat) : jsParseInt (natToStr n) = some n := by
  obtain ⟨hd, hne, hval⟩ := natToStr_spec n
  rw [jsParseInt_all_digits hne hd, hval]

theorem splitOnChar_of_not_mem {sep : Char} :
    ∀ {s : JStr}, sep ∉ s → splitOnChar sep s = [s] := by
  intro s
  induction s with
  | nil => intro _; rfl
  | cons c cs ih =>
    intro h
    rw [List.mem_cons, not_or] at h
    rw [splitOnChar, if_neg fun he => h.1 he.symm, ih h.2]

theorem splitOnChar_append {sep : Char} :
    ∀ {a : JStr} (b : JStr), sep ∉ a →
      splitOnChar sep (a ++ sep :: b) = a :: splitOnChar sep b := by
  intro a
  induction a with
  | nil =>
    intro b _
    rw [List.nil_append, splitOnChar, if_pos rfl]
  | cons c cs ih =>
    intro b h
    rw [List.mem_cons, not_or] at h
    rw [List.cons_append, splitOnChar, if_neg fun he => h.1 he.symm,
      ih b h.2]

theorem not_mem_natToStr {c : Char} (hc : c.isDigit = false) (n : Nat) :
    c ∉ natToStr n := by
  intro hmem
  have := (natToStr_spec n).1 c hmem
  rw [this] at hc
  exact Bool.noConfusion hc

theorem dot_not_mem_natToStr (n : Nat) : ('.' : Char) ∉ natToStr n :=
  not_mem_natToStr (by decide) n

theorem dash_not_mem_natToStr (n : Nat) : ('-' : Char) ∉ natToStr n :=
  not_mem_natToStr (by decide) n

theorem dash_not_mem_relTag (M N P : Nat) : ('-' : Char) ∉ relTag M N P := by
  intro h
  rcases List.mem_append.mp h with h | h
  · rcases List.mem_append.mp h with h | h
    · exact dash_not_mem_natToStr M h
    · rcases List.mem_cons.mp h with h | h
      · exact absurd h (by decide)
      · exact dash_not_mem_natToStr N h
  · rcases List.mem_cons.mp h with h | h
    · exact absurd h (by decide)
    · exact dash_not_mem_natToStr P h

/-- Witness for C6 (amended) on the history `[1.2.3]`. -/
theorem promoteTargetLatest_witness :
    promoteTargetLatest [(⟨1, 2, 3, maxValue⟩ : Version)] =
      some ⟨1, 2, 3, maxValue⟩ ∧
    (⟨1, 2, 3, maxValue⟩ : Version) ∈ [(⟨1, 2, 3, maxValue⟩ : Version)] ∧
    (⟨1, 2, 3, maxValue⟩ : Version).isPreRelease = false :=
  ⟨by decide,
   (promoteTargetLatest_spec.1 [⟨1, 2, 3, maxValue⟩] ⟨1, 2, 3, maxValue⟩
     (by decide)).1,
   (promoteTargetLatest_spec.1 [⟨1, 2, 3, maxValue⟩] ⟨1, 2, 3, maxValue⟩
     (by decide)).2.1⟩

/-! ### Parsing the three canonical tag shapes -/

theorem relTag_assoc (M N P : Nat) :
    relTag M N P =
      natToStr M ++ '.' :: (natToStr N ++ '.' :: natToStr P) := by
  rw [relTag, List.append_assoc, List.cons_append]

theorem splitOnChar_dot_relTag (M N P : Nat) :
    splitOnChar '.' (relTag M N P) = [natToStr M, natToStr N, natToStr P] := by
  rw [relTag_assoc,
    splitOnChar_append _ (dot_not_mem_natToStr M),
    splitOnChar_append _ (dot_not_mem_natToStr N),
    splitOnChar_of_not_mem (dot_not_mem_natToStr P)]

theorem comps_relTag (M N P : Nat) :
    (splitOnChar '.' (relTag M N P)).map jsParseInt =
      [some M, some N, some P] := by
  rw [splitOnChar_dot_relTag]
  simp [jsParseInt_natToStr]

theorem tagToVersion_relTag (M N P : Nat) :
    tagToVersion (relTag M N P) =
      some ⟨some M, some N, some P, some maxValue⟩ := by
  unfold tagToVersion
  rw [splitOnChar_of_not_mem (dash_not_mem_relTag M N P)]
  simp [comps_relTag]

theorem tagToVersion_preTag0 (M N P : Nat) :
    tagToVersion (preTag0 M N P) =
      some ⟨some M, some N, some P, some 0⟩ := by
  unfold tagToVersion preTag0
  rw [splitOnChar_append preStr (dash_not_mem_relTag M N P),
    splitOnChar_of_not_mem (show ('-' : Char) ∉ preStr by decide)]
  simp [comps_relTag,
    show splitOnChar '.' preStr = [preStr] from
      splitOnChar_of_not_mem (by decide)]

theorem tagToVersion_preTagK (M N P K : Nat) :
    tagToVersion (preTagK M N P K) =
      some ⟨some M, some N, some P, some K⟩ := by
  unfold tagToVersion preTagK
  rw [List.append_assoc, List.cons_append,
    splitOnChar_append _ (dash_not_mem_relTag M N P),
    splitOnChar_of_not_mem
      (show ('-' : Char) ∉ preStr ++ '.' :: natToStr K by
        intro h
        rcases List.mem_append.mp h with h | h
        · exact absurd h (by decide)
        · rcases List.mem_cons.mp h with h | h
          · exact absurd h (by decide)
          · exact dash_not_mem_natToStr K h)]
  simp [comps_relTag, jsParseInt_natToStr,
    show splitOnChar '.' (preStr ++ '.' :: natToStr K) =
        [preStr, natToStr K] from by
      rw [splitOnChar_append _ (show ('.' : Char) ∉ preStr by decide),
        splitOnChar_of_not_mem (dot_not_mem_natToStr K)]]

theorem toTag_final {v : Version} (h : ¬ v.prerelease < maxValue) :
    v.toTag = relTag v.major v.minor v.patch := by
  unfold Version.toTag
  rw [if_neg]
  simp [Version.isPreRelease, h]

theorem toTag_preZero {v : Version} (h : v.prerelease = 0) :
    v.toTag = preTag0 v.major v.minor v.patch := by
  unfold Version.toTag
  have h0 := maxValue_pos
  rw [if_pos (by simp [Version.isPreRelease]; omega), if_pos (by simp [h])]

theorem toTag_preK {v : Version} (h0 : v.prerelease ≠ 0)
    (h : v.prerelease < maxValue) :
    v.toTag = preTagK v.major v.minor v.patch v.prerelease := by
  unfold Version.toTag
  rw [if_pos (by simp [Version.isPreRelease, h]), if_neg (by simp [h0])]

/-- C3: tag serialization and parsing are mutually inverse on the valid
domain: parsing `toTag(v)` recovers exactly the constructor arguments of `v`
for every version whose prerelease field is a real ordinal or the final
sentinel, and for each valid tag shape (`M.N.P`, `M.N.P-pre`, `M.N.P-pre.K`
with `0 < K` a representable ordinal) parsing then re-serializing is the
identity. -/
theorem tag_roundtrip :
    (∀ v : Version, v.prerelease ≤ maxValue →
      tagToVersion v.toTag =
        some ⟨some v.major, some v.minor, some v.patch, some v.prerelease⟩) ∧
    (∀ M N P K : Nat, 0 < K → K < maxValue →
      (tagToVersion (relTag M N P) =
          some ⟨some M, some N, some P, some maxValue⟩ ∧
        Version.toTag ⟨M, N, P, maxValue⟩ = relTag M N P) ∧
      (tagToVersion (preTag0 M N P) =
          some ⟨some M, some N, some P, some 0⟩ ∧
        Version.toTag ⟨M, N, P, 0⟩ = preTag0 M N P) ∧
      (tagToVersion (preTagK M N P K) =
          some ⟨some M, some N, some P, some K⟩ ∧
        Version.toTag ⟨M, N, P, K⟩ = preTagK M N P K)) := by
  constructor
  · intro v hle
    rcases Nat.lt_or_ge v.prerelease maxValue with hk | hk
    · rcases Nat.eq_zero_or_pos v.prerelease with h0 | hpos
      · rw [toTag_preZero h0, tagToVersion_preTag0, h0]
      · rw [toTag_preK (by omega) hk, tagToVersion_preTagK]
    · have : v.prerelease = maxValue := by omega
      rw [toTag_final (by omega), tagToVersion_relTag, this]
  · intro M N P K hK hKlt
    refine ⟨⟨tagToVersion_relTag M N P, toTag_final ?_⟩,
      ⟨tagToVersion_preTag0 M N P, toTag_preZero rfl⟩,
      ⟨tagToVersion_preTagK M N P K, toTag_preK ?_ ?_⟩⟩
    · dsimp only
      omega
    · dsimp only
      omega
    · dsimp only
      omega

/-- Witness for C3: round-trip at `(1,2,3)-pre.4` and at the three tag
shapes with `M N P K = 1 2 3 9`. -/
theorem tag_roundtrip_witness :
    ((⟨1, 2, 3, 4⟩ : Version).prerelease ≤ maxValue ∧
      tagToVersion (Version.toTag ⟨1, 2, 3, 4⟩) =
        some ⟨some 1, some 2, some 3, some 4⟩) ∧
    (0 < 9 ∧ 9 < maxValue ∧
      tagToVersion (preTagK 1 2 3 9) = some ⟨some 1, some 2, some 3, some 9⟩ ∧
      Version.toTag ⟨1, 2, 3, 9⟩ = preTagK 1 2 3 9) :=
  ⟨⟨by decide, tag_roundtrip.1 ⟨1, 2, 3, 4⟩ (by decide)⟩,
   by decide, by decide,
   (tag_roundtrip.2 1 2 3 9 (by decide) (by decide)).2.2⟩

/-- C7 counterexample: the tag `0.0.0-pre-x` has a dash suffix that is not
literally `pre` or `pre.K`, yet the parser accepts it (as prerelease ordinal
0): everything after the suffix's first dash-segment is discarded, so the
claimed "parse error on any other suffix content" does not hold. -/
theorem tagToVersion_junk_suffix_counterexample :
    tagToVersion "0.0.0-pre-x".data =
      some ⟨some 0, some 0, some 0, some 0⟩ ∧
    tagToVersion "0.0.0-pre.1.2".data =
      some ⟨some 0, some 0, some 0, some 1⟩ := by
  exact ⟨by decide, by decide⟩

/-- C7 (amended): a tag with no dash suffix parses as a final release,
`-pre` parses to prerelease ordinal 0 and `-pre.K` to ordinal `K`; parsing
fails (`InvalidTagFormat`) exactly when a dash suffix is present and the
first dot-segment of its first dash-segment is not literally `pre` — any
content beyond those leading segments is ignored, not rejected.  In
particular `0.0.0-beta.1` is a parse error. -/
theorem tagToVersion_failure_characterization :
    (∀ M N P : Nat, tagToVersion (relTag M N P) =
      some ⟨some M, some N, some P, some maxValue⟩) ∧
    (∀ M N P : Nat, tagToVersion (preTag0 M N P) =
      some ⟨some M, some N, some P, some 0⟩) ∧
    (∀ M N P K : Nat, tagToVersion (preTagK M N P K) =
      some ⟨some M, some N, some P, some K⟩) ∧
    (∀ t : JStr, tagToVersion t = none ↔
      ∃ pp, (splitOnChar '-' t)[1]? = some pp ∧
        (splitOnChar '.' pp).headD [] ≠ preStr) ∧
    tagToVersion "0.0.0-beta.1".data = none := by
  refine ⟨tagToVersion_relTag, tagToVersion_preTag0, tagToVersion_preTagK,
    ?_, by decide⟩
  intro t
  unfold tagToVersion
  rcases hpp : (splitOnChar '-' t)[1]? with _ | pp
  · simp [hpp]
  · simp only [hpp]
    by_cases hpre : (splitOnChar '.' pp).headD [] ≠ preStr
    · rw [if_pos hpre]
      exact ⟨fun _ => ⟨pp, rfl, hpre⟩, fun _ => rfl⟩
    · rw [if_neg hpre]
      push_neg at hpre
      constructor
      · intro h
        simp at h
      · rintro ⟨pp2, hpp2, hne⟩
        rw [Option.some.injEq] at hpp2
        subst hpp2
        exact absurd hpre hne

/-! ### PR-label bump resolution -/

theorem mapped_actions_eq (ls : List String) :
    (ls.map labelToAction).filter (fun a => a.isSome) =
      (ls.filterMap labelToAction).map some := by
  induction ls with
  | nil => rfl
  | cons l ls ih =>
    cases h : labelToAction l <;>
      simp [List.filterMap_cons, h, ih]

/-- C8: under the `prlabel` bump policy only the first associated pull
request is consulted; its labels are mapped through
release:major/minor/patch; exactly one match returns that action, while zero
or several matches resolve to no action — and a run whose resolved action is
no action terminates as a clean no-release success
(`release_created = false`), not a failure. -/
theorem prlabel_resolution (ls : List String) (rest : List PullRequest)
    (versions : List Version) (p : Bool) :
    (getVersionBumpActionFromPRLabel (⟨ls⟩ :: rest) =
      getVersionBumpActionFromPRLabel [⟨ls⟩]) ∧
    (∀ a : VersionBumpAction, ls.filterMap labelToAction = [a] →
      getVersionBumpActionFromPRLabel (⟨ls⟩ :: rest) = some a) ∧
    ((ls.filterMap labelToAction).length ≠ 1 →
      getVersionBumpActionFromPRLabel (⟨ls⟩ :: rest) = none) ∧
    release none versions p = RunOutcome.noRelease := by
  have hacts := mapped_actions_eq ls
  refine ⟨rfl, ?_, ?_, rfl⟩
  · intro a ha
    unfold getVersionBumpActionFromPRLabel
    simp only [hacts, ha]
    rfl
  · intro hlen
    unfold getVersionBumpActionFromPRLabel
    simp only [hacts]
    rcases hc : ls.filterMap labelToAction with _ | ⟨a, as⟩
    · rfl
    · rcases as with _ | ⟨b, bs⟩
      · rw [hc] at hlen
        simp at hlen
      · simp

/-- Witness for C8: the spec's ambiguous-labels scenario
`["release:minor", "release:patch"]` yields no action and a clean
no-release run. -/
theorem prlabel_resolution_witness :
    (["release:minor", "release:patch"].filterMap labelToAction).length ≠ 1 ∧
    getVersionBumpActionFromPRLabel
      [⟨["release:minor", "release:patch"]⟩] = none ∧
    release none [] false = RunOutcome.noRelease :=
  ⟨by decide,
   (prlabel_resolution ["release:minor", "release:patch"] [] [] false).2.2.1
     (by decide),
   (prlabel_resolution ["release:minor", "release:patch"] [] [] false).2.2.2⟩

end SemRel
